import Mathlib

/-!
My-Tasks: the task store of `src/App.js`.

A shallow embedding of the state handled by the `MyTasksApp` component and of
its event handlers (`addTask`, `toggleTaskCompletion`, `deleteTask`,
`saveEditedTask`, `loadTasks`, `updateTaskNotificationId`,
`sortTasksByPriority`), followed by the properties of the task store.

Conventions of the embedding:

* every `useState` cell of the component is a field of `Store`;
* a handler is a function from the store to an `Outcome`: the next store, the
  calls made to the notifier in order, and the alerts shown;
* the value a `scheduleNotification` promise resolves to (`null` or an
  identifier) is an argument; the `.then` continuations of the handlers are
  functions of their own (`attachIfScheduled`, `attachAfterEdit`), so that a
  continuation can run after later handlers;
* `new Date().toISOString()` is an argument (`now`);
* a handler runs up to its first `await` or to its end before anything else
  happens; what it does when a promise resolves is a step of its own, taken
  with the values the handler read when it started (`addTaskStart` and
  `addTaskCommit` for the `await` of `addTask`);
* task ids are natural numbers: the component counts them up from 1;
* the array that `Array.prototype.sort` reorders in place lives in a `Heap`
  of array objects, so that aliasing between the stored collection and the
  sorted copy is visible.
-/

namespace MyTasks

/-! ## Data model -/

/-- Keys of the `PRIORITIES` table. -/
inductive Priority where
  | HIGH
  | MEDIUM
  | LOW
deriving DecidableEq

/-- A task record as built by `addTask`. -/
structure Task where
  id : Nat
  text : String
  completed : Bool
  priority : Priority
  createdAt : String
  notificationId : Option String
deriving DecidableEq

/-- JavaScript truthiness of a `notificationId`: `null` and the empty string
are falsy, every other identifier is truthy. -/
def truthy : Option String → Bool
  | none => false
  | some h => h != ""

/-- White space and line terminators removed by `String.prototype.trim`
(ECMAScript `WhiteSpace` and `LineTerminator` code points). -/
def isJsWhitespace (c : Char) : Bool :=
  let n := c.toNat
  n == 0x09 || n == 0x0A || n == 0x0B || n == 0x0C || n == 0x0D || n == 0x20 ||
  n == 0xA0 || n == 0x1680 || (0x2000 ≤ n && n ≤ 0x200A) || n == 0x2028 ||
  n == 0x2029 || n == 0x202F || n == 0x205F || n == 0x3000 || n == 0xFEFF

/-- Trim of a character list: leading, then trailing white space is dropped. -/
def trimChars (cs : List Char) : List Char :=
  ((cs.dropWhile isJsWhitespace).reverse.dropWhile isJsWhitespace).reverse

/-- The method `String.prototype.trim`. -/
def jsTrim (s : String) : String := ⟨trimChars s.data⟩

/-- The `useState` cells of `MyTasksApp` (the animation value apart). -/
structure Store where
  tasks : List Task
  inputText : String
  selectedPriority : Priority
  nextId : Nat
  editModalVisible : Bool
  editingTask : Option Task
  editText : String
  editPriority : Priority
deriving DecidableEq

/-- Initial values of the `useState` cells. -/
def initialStore : Store :=
  { tasks := [], inputText := "", selectedPriority := Priority.MEDIUM, nextId := 1,
    editModalVisible := false, editingTask := none, editText := "",
    editPriority := Priority.MEDIUM }

/-- Calls made to the notifier: `cancel` is a call of
`Notifications.cancelScheduledNotificationAsync` made by `cancelNotification`,
`schedule` a call of `scheduleNotification`. -/
inductive Effect where
  | cancel (notificationId : String)
  | schedule (taskId : Nat) (taskText : String)
deriving DecidableEq

/-- What a handler leaves behind: the store after its `set...` calls, the
notifier calls it made, and the `Alert.alert` dialogs (title, message). -/
structure Outcome where
  store : Store
  effects : List Effect
  alerts : List (String × String)
deriving DecidableEq

/-! ## Handlers -/

/-- The function `cancelNotification`: cancels when the identifier is truthy. -/
def cancelNotification (notificationId : Option String) : List Effect :=
  match notificationId with
  | some h => if truthy (some h) then [Effect.cancel h] else []
  | none => []

/-- The function `updateTaskNotificationId`. -/
def updateTaskNotificationId (s : Store) (taskId : Nat) (notificationId : Option String) :
    Store :=
  { s with tasks := s.tasks.map fun task =>
      if task.id = taskId then { task with notificationId := notificationId } else task }

/-- Setter of the `inputText` cell (`onChangeText` of the input field). -/
def setInputText (s : Store) (text : String) : Store := { s with inputText := text }

/-- Setter of the `selectedPriority` cell. -/
def setSelectedPriority (s : Store) (p : Priority) : Store := { s with selectedPriority := p }

/-- Setter of the `editText` cell. -/
def setEditText (s : Store) (text : String) : Store := { s with editText := text }

/-- Setter of the `editPriority` cell. -/
def setEditPriority (s : Store) (p : Priority) : Store := { s with editPriority := p }

/-- The handler `addTask` when nothing else happens during its `await`; `now`
is the creation timestamp and `scheduled` the value the awaited
`scheduleNotification` call resolved to. -/
def addTask (s : Store) (now : String) (scheduled : Option String) : Outcome :=
  if jsTrim s.inputText = "" then
    { store := s, effects := [], alerts := [("Error", "Please enter a task")] }
  else
    let newTask : Task :=
      { id := s.nextId, text := jsTrim s.inputText, completed := false,
        priority := s.selectedPriority, createdAt := now, notificationId := scheduled }
    { store := { s with tasks := s.tasks ++ [newTask], inputText := "",
                        selectedPriority := Priority.MEDIUM, nextId := s.nextId + 1 },
      effects := [Effect.schedule s.nextId (jsTrim s.inputText)],
      alerts := [] }

/-- What an `addTask` call suspended at its `await` holds on to: the `tasks`
and `nextId` of the render it started in, and the `newTask` it built. -/
structure PendingAdd where
  tasks : List Task
  nextId : Nat
  newTask : Task
deriving DecidableEq

/-- The handler `addTask` up to its `await`: the early return on a blank text,
or else `newTask` is built from the current cells and `scheduleNotification`
is called. No cell is written. -/
def addTaskStart (s : Store) (now : String) : Outcome × Option PendingAdd :=
  if jsTrim s.inputText = "" then
    ({ store := s, effects := [], alerts := [("Error", "Please enter a task")] }, none)
  else
    ({ store := s, effects := [Effect.schedule s.nextId (jsTrim s.inputText)], alerts := [] },
      some { tasks := s.tasks, nextId := s.nextId,
             newTask := { id := s.nextId, text := jsTrim s.inputText, completed := false,
                          priority := s.selectedPriority, createdAt := now,
                          notificationId := none } })

/-- The handler `addTask` after its `await`: the identifier is put on `newTask`
and the cells are written from the values read at the start,
`setTasks([...tasks, newTask])` and `setNextId(nextId + 1)`. -/
def addTaskCommit (s : Store) (pending : PendingAdd) (scheduled : Option String) : Store :=
  { s with tasks := pending.tasks ++ [{ pending.newTask with notificationId := scheduled }],
           inputText := "", selectedPriority := Priority.MEDIUM,
           nextId := pending.nextId + 1 }

/-- Body of the `map` callback of `toggleTaskCompletion`: the task it returns
and the notifier calls it makes. -/
def toggleOne (taskId : Nat) (task : Task) : Task × List Effect :=
  if task.id = taskId then
    let updatedTask : Task := { task with completed := !task.completed }
    if updatedTask.completed && truthy task.notificationId then
      ({ updatedTask with notificationId := none }, cancelNotification task.notificationId)
    else if !updatedTask.completed && !truthy task.notificationId then
      (updatedTask, [Effect.schedule taskId task.text])
    else
      (updatedTask, [])
  else
    (task, [])

/-- The handler `toggleTaskCompletion`. -/
def toggleTaskCompletion (s : Store) (taskId : Nat) : Outcome :=
  { store := { s with tasks := s.tasks.map fun task => (toggleOne taskId task).1 },
    effects := s.tasks.flatMap fun task => (toggleOne taskId task).2,
    alerts := [] }

/-- Continuation of the `scheduleNotification` calls of `toggleTaskCompletion`
and `loadTasks`: `if (notificationId) updateTaskNotificationId(...)`. -/
def attachIfScheduled (s : Store) (taskId : Nat) (notificationId : Option String) : Store :=
  if truthy notificationId then updateTaskNotificationId s taskId notificationId else s

/-- Continuation of the `scheduleNotification` call of `saveEditedTask`: the
identifier is stored without a test. -/
def attachAfterEdit (s : Store) (taskId : Nat) (notificationId : Option String) : Store :=
  updateTaskNotificationId s taskId notificationId

/-- The handler `deleteTask`. -/
def deleteTask (s : Store) (taskId : Nat) : Outcome :=
  let taskToDelete := s.tasks.find? fun task => task.id = taskId
  { store := { s with tasks := s.tasks.filter fun task => task.id ≠ taskId },
    effects :=
      match taskToDelete with
      | some task => if truthy task.notificationId then cancelNotification task.notificationId
                     else []
      | none => [],
    alerts := [] }

/-- The handler `openEditModal`. -/
def openEditModal (s : Store) (task : Task) : Store :=
  { s with editingTask := some task, editText := task.text, editPriority := task.priority,
           editModalVisible := true }

/-- The handler `cancelEdit`. -/
def cancelEdit (s : Store) : Store :=
  { s with editModalVisible := false, editingTask := none, editText := "",
           editPriority := Priority.MEDIUM }

/-- Body of the `map` callback of `saveEditedTask`, for the id of the task
being edited. -/
def editOne (editingId : Nat) (editText : String) (editPriority : Priority) (task : Task) :
    Task × List Effect :=
  if task.id = editingId then
    let updatedTask : Task := { task with text := jsTrim editText, priority := editPriority }
    if task.text ≠ jsTrim editText && truthy task.notificationId && !task.completed then
      ({ updatedTask with notificationId := none },
        cancelNotification task.notificationId ++ [Effect.schedule task.id (jsTrim editText)])
    else
      (updatedTask, [])
  else
    (task, [])

/-- The state updates that end `saveEditedTask`: `setTasks(updatedTasks)`, then
the dialog is closed and its cells are reset. -/
def closeEditModal (s : Store) (updatedTasks : List Task) : Store :=
  { s with tasks := updatedTasks, editModalVisible := false, editingTask := none,
           editText := "", editPriority := Priority.MEDIUM }

/-- The handler `saveEditedTask`. The result is `none` when reading
`editingTask.id` throws: `editingTask` is `null` and the `map` callback runs. -/
def saveEditedTask (s : Store) : Option Outcome :=
  if jsTrim s.editText = "" then
    some { store := s, effects := [], alerts := [("Error", "Please enter a task")] }
  else
    match s.editingTask, s.tasks with
    | none, [] => some { store := closeEditModal s [], effects := [], alerts := [] }
    | none, _ :: _ => none
    | some editingTask, tasks =>
      some { store := closeEditModal s (tasks.map fun task =>
               (editOne editingTask.id s.editText s.editPriority task).1),
             effects := tasks.flatMap fun task =>
               (editOne editingTask.id s.editText s.editPriority task).2,
             alerts := [] }

/-- The handler `loadTasks`; `storedTasks` is the decoded item of the storage
key, `none` when nothing is stored. -/
def loadTasks (s : Store) (storedTasks : Option (List Task)) : Outcome :=
  match storedTasks with
  | none => { store := s, effects := [], alerts := [] }
  | some parsedTasks =>
    let maxId := parsedTasks.foldl (fun m task => max m task.id) 0
    { store := { s with tasks := parsedTasks, nextId := maxId + 1 },
      effects := (parsedTasks.filter fun task =>
          !task.completed && !truthy task.notificationId).map
        fun task => Effect.schedule task.id task.text,
      alerts := [] }

/-! ## Sorted view -/

/-- The table `priorityOrder` of `sortTasksByPriority`. -/
def priorityOrder : Priority → Int
  | Priority.HIGH => 3
  | Priority.MEDIUM => 2
  | Priority.LOW => 1

/-- Numeric value of a boolean under the subtraction `a.completed - b.completed`. -/
def boolToInt (b : Bool) : Int := if b then 1 else 0

/-- The comparator passed to `sort` in `sortTasksByPriority`. -/
def compareTasks (a b : Task) : Int :=
  if a.completed ≠ b.completed then
    boolToInt a.completed - boolToInt b.completed
  else
    priorityOrder b.priority - priorityOrder a.priority

/-- The method `Array.prototype.sort` with a comparator, on the contents of
the array: a stable sort, `a` staying before `b` when `cmp a b ≤ 0`. -/
def arraySort (cmp : Task → Task → Int) (xs : List Task) : List Task :=
  xs.insertionSort fun a b => cmp a b ≤ 0

/-- Array objects by address. -/
abbrev Heap := List (List Task)

/-- Contents of the array at an address. -/
def Heap.read (h : Heap) (ref : Nat) : List Task := h.getD ref []

/-- The spread copy `[...arr]`: a new array object with the same elements. -/
def spread (h : Heap) (ref : Nat) : Heap × Nat := (h ++ [h.read ref], h.length)

/-- The function `sortTasksByPriority`: sorts the array it is given in place
and returns that same array. -/
def sortTasksByPriority (h : Heap) (tasksToSort : Nat) : Heap × Nat :=
  (h.set tasksToSort (arraySort compareTasks (h.read tasksToSort)), tasksToSort)

/-- The render-time value `sortedTasks = sortTasksByPriority([...tasks])`, for
the collection stored at address `tasks`. -/
def sortedTasks (h : Heap) (tasks : Nat) : Heap × Nat :=
  sortTasksByPriority (spread h tasks).1 (spread h tasks).2

/-- Contents of `sortedTasks` for a collection given by value. -/
def sortedView (tasks : List Task) : List Task :=
  (sortedTasks [tasks] 0).1.read (sortedTasks [tasks] 0).2

/-! ## Store operations and traces -/

/-- The store operation `add(rawText, priority)`: the text is typed into the
input field, the priority is selected, and `addTask` runs, its reminder
request resolving before anything else happens. -/
def add (s : Store) (rawText : String) (p : Priority) (now : String)
    (scheduled : Option String) : Outcome :=
  addTask (setSelectedPriority (setInputText s rawText) p) now scheduled

/-- The store operation `edit(id, newText, newPriority)`: the edit dialog is
opened on a task, text and priority are entered, and `saveEditedTask` runs. -/
def edit (s : Store) (task : Task) (newText : String) (newPriority : Priority) :
    Option Outcome :=
  saveEditedTask (setEditPriority (setEditText (openEditModal s task) newText) newPriority)

/-- Resolution of the `scheduleNotification` calls among the notifier calls of
`toggleTaskCompletion`, in order: each one resolves to the notifier's answer
and its continuation runs. -/
def attachAll (notifier : Nat → String → Option String) (s : Store) : List Effect → Store
  | [] => s
  | Effect.schedule taskId taskText :: es =>
    attachAll notifier (attachIfScheduled s taskId (notifier taskId taskText)) es
  | Effect.cancel _ :: es => attachAll notifier s es

/-- The store operation `toggleCompletion(id)` with the result of each
requested reminder attached before the next operation. -/
def toggleCompletion (notifier : Nat → String → Option String) (s : Store) (taskId : Nat) :
    Store :=
  attachAll notifier (toggleTaskCompletion s taskId).store (toggleTaskCompletion s taskId).effects

/-- Steps of the task store. `add` is an `addTask` call whose reminder request
resolves before anything else happens; `addStart` and `addCommit` are the two
halves of an `addTask` call in general, the commit naming the suspended call by
its place among the pending ones. `load` is an application start that reads
the snapshot persisted after the latest change of `tasks`; `attach` and
`attachEdit` are the moments at which a pending `scheduleNotification` call of
a toggle, a load or an edit resolves. -/
inductive Op where
  | add (rawText : String) (p : Priority) (now : String) (scheduled : Option String)
  | addStart (rawText : String) (p : Priority) (now : String)
  | addCommit (k : Nat) (scheduled : Option String)
  | toggle (taskId : Nat)
  | edit (task : Task) (newText : String) (newPriority : Priority)
  | delete (taskId : Nat)
  | load
  | attach (taskId : Nat) (notificationId : Option String)
  | attachEdit (taskId : Nat) (notificationId : Option String)
deriving DecidableEq

/-- The running application: the state cells and the `addTask` calls that are
suspended at their `await`, oldest first. -/
structure World where
  store : Store
  pending : List PendingAdd
deriving DecidableEq

/-- The application at its first start. -/
def initialWorld : World := { store := initialStore, pending := [] }

/-- One step of the application. -/
def step (w : World) : Op → World
  | Op.add rawText p now scheduled =>
    { w with store := (add w.store rawText p now scheduled).store }
  | Op.addStart rawText p now =>
    match (addTaskStart (setSelectedPriority (setInputText w.store rawText) p) now).2 with
    | some pending =>
      { store := setSelectedPriority (setInputText w.store rawText) p,
        pending := w.pending ++ [pending] }
    | none => { w with store := setSelectedPriority (setInputText w.store rawText) p }
  | Op.addCommit k scheduled =>
    match w.pending[k]? with
    | some pending =>
      { store := addTaskCommit w.store pending scheduled, pending := w.pending.eraseIdx k }
    | none => w
  | Op.toggle taskId => { w with store := (toggleTaskCompletion w.store taskId).store }
  | Op.edit task newText newPriority =>
    match edit w.store task newText newPriority with
    | some o => { w with store := o.store }
    | none => w
  | Op.delete taskId => { w with store := (deleteTask w.store taskId).store }
  | Op.load => { store := (loadTasks initialStore (some w.store.tasks)).store, pending := [] }
  | Op.attach taskId notificationId =>
    { w with store := attachIfScheduled w.store taskId notificationId }
  | Op.attachEdit taskId notificationId =>
    { w with store := attachAfterEdit w.store taskId notificationId }

/-- The application after a sequence of steps. -/
def run (w : World) (ops : List Op) : World := ops.foldl step w

/-- The points of a sequence of steps: the application at each point, the
first and the last included, with the steps still to come. -/
def visited (w : World) : List Op → List (World × List Op)
  | [] => [(w, [])]
  | op :: ops => (w, op :: ops) :: visited (step w op) ops

/-- Store states of the application: those a sequence of steps reaches from
the first start. -/
def Reachable (s : Store) : Prop := ∃ ops : List Op, (run initialWorld ops).store = s

/-- Well-formedness of a store: ids are below the counter and pairwise
distinct, and no text is empty. -/
structure Inv (s : Store) : Prop where
  below : ∀ t ∈ s.tasks, t.id < s.nextId
  distinct : (s.tasks.map Task.id).Nodup
  nonempty : ∀ t ∈ s.tasks, t.text ≠ ""

/-! ## Derived notions used by the statements -/

/-- The task that `toggleCompletion` leaves in place of a task of the toggled
id: the result of the `map` callback, with the identifier attached when the
callback requested a reminder and the notifier answered with one. -/
def toggledTask (notifier : Nat → String → Option String) (task : Task) : Task :=
  match (toggleOne task.id task).2 with
  | [Effect.schedule taskId taskText] =>
    if truthy (notifier taskId taskText) then
      { (toggleOne task.id task).1 with notificationId := notifier taskId taskText }
    else (toggleOne task.id task).1
  | _ => (toggleOne task.id task).1

/-- Steps that are one half of an `addTask` call whose `await` other steps may
fall into. -/
def Op.splitsAdd : Op → Bool
  | Op.addStart _ _ _ => true
  | Op.addCommit _ _ => true
  | _ => false

/-- An id is kept by the loads of a sequence of steps: every load of the
sequence reads a snapshot that holds an id at least as large. -/
def keptByLoads (i : Nat) (w : World) : List Op → Bool
  | [] => true
  | Op.load :: ops =>
    w.store.tasks.any (fun v => decide (i ≤ v.id)) && keptByLoads i (step w Op.load) ops
  | op :: ops => keptByLoads i (step w op) ops

/-- Well-formedness of a suspended `addTask` call: it started in a well-formed
store. -/
structure PendingAdd.Ok (p : PendingAdd) : Prop where
  below : ∀ t ∈ p.tasks, t.id < p.nextId
  distinct : (p.tasks.map Task.id).Nodup
  nonempty : ∀ t ∈ p.tasks, t.text ≠ ""
  newId : p.newTask.id = p.nextId
  newText : p.newTask.text ≠ ""

/-- Well-formedness of the application: of its store and of its suspended
`addTask` calls. -/
structure WorldInv (w : World) : Prop where
  store : Inv w.store
  pending : ∀ p ∈ w.pending, p.Ok

/-- No completed task holds a live reminder identifier. -/
def NoLiveHandle (s : Store) : Prop :=
  ∀ t ∈ s.tasks, t.completed = true → truthy t.notificationId = false

/-! # Properties -/

/-! ## Trimming -/

theorem trimChars_eq_nil_iff (cs : List Char) :
    trimChars cs = [] ↔ ∀ c ∈ cs, isJsWhitespace c = true := by
  unfold trimChars
  rw [List.reverse_eq_nil_iff, List.dropWhile_eq_nil_iff]
  constructor
  · intro h
    have hnil : cs.dropWhile isJsWhitespace = [] := by
      cases hd : cs.dropWhile isJsWhitespace with
      | nil => rfl
      | cons x xs =>
        have hx : isJsWhitespace x = true := h x (by simp [hd])
        have hnot := List.head_dropWhile_not isJsWhitespace cs (by simp [hd])
        simp [hd, hx] at hnot
    exact List.dropWhile_eq_nil_iff.mp hnil
  · intro h
    have hnil : cs.dropWhile isJsWhitespace = [] := List.dropWhile_eq_nil_iff.mpr h
    simp [hnil]

theorem jsTrim_eq_empty_iff (s : String) :
    jsTrim s = "" ↔ ∀ c ∈ s.data, isJsWhitespace c = true := by
  rw [← trimChars_eq_nil_iff]
  unfold jsTrim
  constructor
  · intro h
    have := congrArg String.data h
    simpa using this
  · intro h
    rw [h]

/-! ## Well-formedness is kept by every step -/

theorem inv_initialStore : Inv initialStore :=
  ⟨by simp [initialStore], by simp [initialStore], by simp [initialStore]⟩

/-- A `map` whose callback keeps ids and non-empty texts keeps well-formedness. -/
theorem Inv.map_tasks {s s' : Store} (h : Inv s) (f : Task → Task)
    (htasks : s'.tasks = s.tasks.map f) (hnext : s'.nextId = s.nextId)
    (hid : ∀ u, (f u).id = u.id) (htext : ∀ u ∈ s.tasks, (f u).text ≠ "") : Inv s' := by
  have hids : s'.tasks.map Task.id = s.tasks.map Task.id := by
    rw [htasks, List.map_map]
    exact List.map_congr_left fun u _ => hid u
  refine ⟨?_, ?_, ?_⟩
  · intro t ht
    rw [htasks] at ht
    obtain ⟨u, hu, rfl⟩ := List.mem_map.mp ht
    rw [hid, hnext]
    exact h.below u hu
  · rw [hids]
    exact h.distinct
  · intro t ht
    rw [htasks] at ht
    obtain ⟨u, hu, rfl⟩ := List.mem_map.mp ht
    exact htext u hu

/-- A `filter` keeps well-formedness. -/
theorem Inv.filter_tasks {s s' : Store} (h : Inv s) (p : Task → Bool)
    (htasks : s'.tasks = s.tasks.filter p) (hnext : s'.nextId = s.nextId) : Inv s' := by
  refine ⟨?_, ?_, ?_⟩
  · intro t ht
    rw [htasks] at ht
    rw [hnext]
    exact h.below t (List.mem_filter.mp ht).1
  · rw [htasks]
    exact (h.distinct.sublist ((List.filter_sublist s.tasks).map Task.id))
  · intro t ht
    rw [htasks] at ht
    exact h.nonempty t (List.mem_filter.mp ht).1

theorem toggleOne_id (taskId : Nat) (u : Task) : (toggleOne taskId u).1.id = u.id := by
  unfold toggleOne
  dsimp only
  split_ifs <;> rfl

theorem toggleOne_text (taskId : Nat) (u : Task) : (toggleOne taskId u).1.text = u.text := by
  unfold toggleOne
  dsimp only
  split_ifs <;> rfl

theorem editOne_id (editingId : Nat) (text : String) (p : Priority) (u : Task) :
    (editOne editingId text p u).1.id = u.id := by
  unfold editOne
  split_ifs <;> rfl

theorem editOne_text (editingId : Nat) (text : String) (p : Priority) (u : Task) :
    (editOne editingId text p u).1.text = u.text ∨
      (editOne editingId text p u).1.text = jsTrim text := by
  unfold editOne
  split_ifs <;> simp

theorem inv_addTask {s : Store} (h : Inv s) (now : String) (scheduled : Option String) :
    Inv (addTask s now scheduled).store := by
  unfold addTask
  split_ifs with hempty
  · exact h
  · refine ⟨?_, ?_, ?_⟩
    · intro t ht
      simp only [List.mem_append, List.mem_singleton] at ht
      rcases ht with ht | rfl
      · exact Nat.lt_succ_of_lt (h.below t ht)
      · exact Nat.lt_succ_self _
    · simp only [List.map_append, List.map_cons, List.map_nil]
      refine List.Nodup.append h.distinct (List.nodup_singleton _) ?_
      intro a ha hb
      simp only [List.mem_singleton] at hb
      obtain ⟨t, ht, rfl⟩ := List.mem_map.mp ha
      exact absurd hb (Nat.ne_of_lt (h.below t ht))
    · intro t ht
      simp only [List.mem_append, List.mem_singleton] at ht
      rcases ht with ht | rfl
      · exact h.nonempty t ht
      · exact hempty

theorem inv_add {s : Store} (h : Inv s) (rawText : String) (p : Priority) (now : String)
    (scheduled : Option String) : Inv (add s rawText p now scheduled).store :=
  inv_addTask (s := setSelectedPriority (setInputText s rawText) p)
    ⟨h.below, h.distinct, h.nonempty⟩ now scheduled

theorem inv_toggleTaskCompletion {s : Store} (h : Inv s) (taskId : Nat) :
    Inv (toggleTaskCompletion s taskId).store :=
  h.map_tasks (fun task => (toggleOne taskId task).1) rfl rfl (toggleOne_id taskId)
    fun u hu => by rw [toggleOne_text]; exact h.nonempty u hu

theorem inv_updateTaskNotificationId {s : Store} (h : Inv s) (taskId : Nat)
    (notificationId : Option String) : Inv (updateTaskNotificationId s taskId notificationId) :=
  h.map_tasks
    (fun task => if task.id = taskId then { task with notificationId := notificationId } else task)
    rfl rfl (fun u => by dsimp only; split_ifs <;> rfl)
    fun u hu => by
      have := h.nonempty u hu
      dsimp only
      split_ifs <;> simpa using this

theorem inv_attachIfScheduled {s : Store} (h : Inv s) (taskId : Nat)
    (notificationId : Option String) : Inv (attachIfScheduled s taskId notificationId) := by
  unfold attachIfScheduled
  split_ifs
  · exact inv_updateTaskNotificationId h taskId notificationId
  · exact h

theorem inv_deleteTask {s : Store} (h : Inv s) (taskId : Nat) :
    Inv (deleteTask s taskId).store :=
  h.filter_tasks (fun task => decide (task.id ≠ taskId)) rfl rfl

theorem inv_saveEditedTask {s : Store} (h : Inv s) {o : Outcome}
    (ho : saveEditedTask s = some o) : Inv o.store := by
  unfold saveEditedTask at ho
  split_ifs at ho with hempty
  · cases ho
    exact h
  · split at ho
    · cases ho
      exact ⟨by simp [closeEditModal], by simp [closeEditModal], by simp [closeEditModal]⟩
    · cases ho
    · rename_i editingTask heq
      cases ho
      refine h.map_tasks (fun task => (editOne editingTask.id s.editText s.editPriority task).1)
        rfl rfl (editOne_id _ _ _) ?_
      intro u hu
      rcases editOne_text editingTask.id s.editText s.editPriority u with e | e
      · rw [e]; exact h.nonempty u hu
      · rw [e]; exact hempty

theorem inv_edit {s : Store} (h : Inv s) (task : Task) (newText : String)
    (newPriority : Priority) {o : Outcome} (ho : edit s task newText newPriority = some o) :
    Inv o.store :=
  inv_saveEditedTask
    (s := setEditPriority (setEditText (openEditModal s task) newText) newPriority)
    ⟨h.below, h.distinct, h.nonempty⟩ ho

theorem le_foldl_max_id (tasks : List Task) (m : Nat) :
    m ≤ tasks.foldl (fun m task => max m task.id) m ∧
      ∀ t ∈ tasks, t.id ≤ tasks.foldl (fun m task => max m task.id) m := by
  induction tasks generalizing m with
  | nil => simp
  | cons a l ih =>
    simp only [List.foldl_cons, List.mem_cons]
    obtain ⟨h1, h2⟩ := ih (max m a.id)
    refine ⟨le_trans (le_max_left _ _) h1, ?_⟩
    rintro t (rfl | ht)
    · exact le_trans (le_max_right _ _) h1
    · exact h2 t ht

theorem inv_loadTasks {s : Store} (h : Inv s) (base : Store) :
    Inv (loadTasks base (some s.tasks)).store := by
  refine ⟨?_, h.distinct, h.nonempty⟩
  intro t ht
  exact Nat.lt_succ_of_le ((le_foldl_max_id s.tasks 0).2 t ht)

theorem inv_addTaskCommit {p : PendingAdd} (hp : p.Ok) (s : Store)
    (scheduled : Option String) : Inv (addTaskCommit s p scheduled) := by
  refine ⟨?_, ?_, ?_⟩
  · intro t ht
    simp only [addTaskCommit, List.mem_append, List.mem_singleton] at ht ⊢
    rcases ht with ht | rfl
    · exact Nat.lt_succ_of_lt (hp.below t ht)
    · rw [hp.newId]
      exact Nat.lt_succ_self _
  · simp only [addTaskCommit, List.map_append, List.map_cons, List.map_nil]
    refine List.Nodup.append hp.distinct (List.nodup_singleton _) ?_
    intro a ha hb
    simp only [List.mem_singleton] at hb
    obtain ⟨t, ht, rfl⟩ := List.mem_map.mp ha
    rw [hp.newId] at hb
    exact absurd hb (Nat.ne_of_lt (hp.below t ht))
  · intro t ht
    simp only [addTaskCommit, List.mem_append, List.mem_singleton] at ht
    rcases ht with ht | rfl
    · exact hp.nonempty t ht
    · exact hp.newText

theorem addTaskStart_ok {s : Store} (h : Inv s) (now : String) {p : PendingAdd}
    (hp : (addTaskStart s now).2 = some p) : p.Ok := by
  unfold addTaskStart at hp
  split_ifs at hp with hempty
  cases hp
  exact ⟨h.below, h.distinct, h.nonempty, rfl, hempty⟩

theorem eraseIdx_append_singleton {α : Type} (l : List α) (x : α) :
    (l ++ [x]).eraseIdx l.length = l := by
  induction l with
  | nil => rfl
  | cons a l ih => simp [List.eraseIdx, ih]

/-- The atomic `add` step is an `addStart` step followed at once by the commit
of the call it suspended. -/
theorem step_add_eq_start_commit (w : World) (rawText : String) (p : Priority) (now : String)
    (scheduled : Option String) :
    step (step w (Op.addStart rawText p now)) (Op.addCommit w.pending.length scheduled) =
      step w (Op.add rawText p now scheduled) := by
  by_cases hempty : jsTrim rawText = ""
  · simp [step, add, addTask, addTaskStart, setInputText, setSelectedPriority, hempty]
  · simp [step, add, addTask, addTaskStart, addTaskCommit, setInputText, setSelectedPriority,
      hempty, eraseIdx_append_singleton]

theorem inv_step {w : World} (h : WorldInv w) (op : Op) : WorldInv (step w op) := by
  cases op with
  | add rawText p now scheduled => exact ⟨inv_add h.store rawText p now scheduled, h.pending⟩
  | addStart rawText p now =>
    have htyped : Inv (setSelectedPriority (setInputText w.store rawText) p) :=
      ⟨h.store.below, h.store.distinct, h.store.nonempty⟩
    simp only [step]
    cases hp : (addTaskStart (setSelectedPriority (setInputText w.store rawText) p) now).2 with
    | none => exact ⟨htyped, h.pending⟩
    | some pending =>
      refine ⟨htyped, ?_⟩
      intro q hq
      simp only [List.mem_append, List.mem_singleton] at hq
      rcases hq with hq | rfl
      · exact h.pending q hq
      · exact addTaskStart_ok htyped now hp
  | addCommit k scheduled =>
    simp only [step]
    cases hp : w.pending[k]? with
    | none => exact h
    | some pending =>
      exact ⟨inv_addTaskCommit (h.pending pending (List.getElem?_mem hp)) w.store scheduled,
        fun q hq => h.pending q (List.mem_of_mem_eraseIdx hq)⟩
  | toggle taskId => exact ⟨inv_toggleTaskCompletion h.store taskId, h.pending⟩
  | edit task newText newPriority =>
    simp only [step]
    cases ho : edit w.store task newText newPriority with
    | none => exact h
    | some o => exact ⟨inv_edit h.store task newText newPriority ho, h.pending⟩
  | delete taskId => exact ⟨inv_deleteTask h.store taskId, h.pending⟩
  | load => exact ⟨inv_loadTasks h.store initialStore, fun q hq => by simp [step] at hq⟩
  | attach taskId notificationId =>
    exact ⟨inv_attachIfScheduled h.store taskId notificationId, h.pending⟩
  | attachEdit taskId notificationId =>
    exact ⟨inv_updateTaskNotificationId h.store taskId notificationId, h.pending⟩

theorem inv_run {w : World} (h : WorldInv w) (ops : List Op) : WorldInv (run w ops) := by
  induction ops generalizing w with
  | nil => exact h
  | cons op ops ih => exact ih (inv_step h op)

theorem inv_initialWorld : WorldInv initialWorld :=
  ⟨inv_initialStore, fun q hq => by simp [initialWorld] at hq⟩

theorem Reachable.inv {s : Store} (h : Reachable s) : Inv s := by
  obtain ⟨ops, rfl⟩ := h
  exact (inv_run inv_initialWorld ops).store

/-! ## Adding and rejecting -/

/-- In a well-formed store, two stored tasks with the same id are the same task. -/
theorem Inv.eq_of_id_eq {s : Store} (h : Inv s) {u t : Task} (hu : u ∈ s.tasks)
    (ht : t ∈ s.tasks) (hid : u.id = t.id) : u = t :=
  List.inj_on_of_nodup_map h.distinct hu ht hid

/-- An `add` whose reminder request resolves before anything else happens
appends one task with the trimmed text, `completed = false`, the chosen
priority and an id that no stored task has, and keeps the stored tasks. -/
theorem add_appends_when_not_overlapped (s : Store) (hs : Reachable s) (rawText : String)
    (p : Priority) (now : String) (scheduled : Option String)
    (hne : jsTrim rawText ≠ "") :
    ∃ newTask : Task,
      (add s rawText p now scheduled).store.tasks = s.tasks ++ [newTask] ∧
      newTask.text = jsTrim rawText ∧ newTask.completed = false ∧
      newTask.priority = p ∧ ∀ t ∈ s.tasks, newTask.id ≠ t.id := by
  refine ⟨{ id := s.nextId, text := jsTrim rawText, completed := false, priority := p,
            createdAt := now, notificationId := scheduled }, ?_, rfl, rfl, rfl, ?_⟩
  · simp [add, addTask, setInputText, setSelectedPriority, hne]
  · intro t ht
    exact Nat.ne_of_gt (hs.inv.below t ht)

/-- C1, the defect: "a" is added and, while its reminder request is pending,
"b" is added; both calls read the empty collection and the next id 1. The
first commit stores "a" with id 1; the second commit writes the collection it
read plus its own task, so "a" is gone and "b" has the id 1 again. -/
theorem overlapping_adds_drop_stored_task :
    (run initialWorld
        [Op.addStart "a" Priority.MEDIUM "t0", Op.addStart "b" Priority.MEDIUM "t1",
          Op.addCommit 0 (some "n1")]).store.tasks =
      [⟨1, "a", false, Priority.MEDIUM, "t0", some "n1"⟩] ∧
    (run initialWorld
        [Op.addStart "a" Priority.MEDIUM "t0", Op.addStart "b" Priority.MEDIUM "t1",
          Op.addCommit 0 (some "n1"), Op.addCommit 0 (some "n2")]).store.tasks =
      [⟨1, "b", false, Priority.MEDIUM, "t1", some "n2"⟩] ∧
    (run initialWorld
        [Op.addStart "a" Priority.MEDIUM "t0", Op.addStart "b" Priority.MEDIUM "t1",
          Op.addCommit 0 (some "n1"), Op.addCommit 0 (some "n2")]).store.nextId = 2 := by
  decide

/-- C2: a text that is empty or holds only white space is rejected by `add`
and by `edit` before anything changes: the collection and the next id are as
before, the notifier is not called, and the error alert is shown. -/
theorem blank_text_rejected (s : Store) (text : String)
    (hblank : ∀ c ∈ text.data, isJsWhitespace c = true) (p : Priority) (now : String)
    (scheduled : Option String) (task : Task) :
    (add s text p now scheduled).store.tasks = s.tasks ∧
    (add s text p now scheduled).store.nextId = s.nextId ∧
    (add s text p now scheduled).effects = [] ∧
    (add s text p now scheduled).alerts = [("Error", "Please enter a task")] ∧
    ∃ o : Outcome, edit s task text p = some o ∧ o.store.tasks = s.tasks ∧
      o.store.nextId = s.nextId ∧ o.effects = [] ∧
      o.alerts = [("Error", "Please enter a task")] := by
  have hempty : jsTrim text = "" := (jsTrim_eq_empty_iff text).mpr hblank
  refine ⟨?_, ?_, ?_, ?_, ?_⟩
  · simp [add, addTask, setInputText, setSelectedPriority, hempty]
  · simp [add, addTask, setInputText, setSelectedPriority, hempty]
  · simp [add, addTask, setInputText, setSelectedPriority, hempty]
  · simp [add, addTask, setInputText, setSelectedPriority, hempty]
  · refine ⟨{ store := setEditPriority (setEditText (openEditModal s task) text) p,
              effects := [], alerts := [("Error", "Please enter a task")] }, ?_, ?_⟩
    · simp [edit, saveEditedTask, setEditText, setEditPriority, openEditModal, hempty]
    · simp [setEditText, setEditPriority, openEditModal]

/-- Witness of C2: a text of blanks, a tab and a line break, on a store that
holds one task. -/
theorem blank_text_rejected_witness :
    (add (run initialWorld [Op.add "buy milk" Priority.LOW "t0" (some "n1")]).store " \t\n "
        Priority.HIGH "t1" (some "n2")).store.tasks =
      (run initialWorld [Op.add "buy milk" Priority.LOW "t0" (some "n1")]).store.tasks ∧
    (add (run initialWorld [Op.add "buy milk" Priority.LOW "t0" (some "n1")]).store " \t\n "
        Priority.HIGH "t1" (some "n2")).store.nextId = 2 :=
  ⟨(blank_text_rejected (run initialWorld [Op.add "buy milk" Priority.LOW "t0" (some "n1")]).store
      " \t\n " (by decide) Priority.HIGH "t1" (some "n2")
      ⟨1, "buy milk", false, Priority.LOW, "t0", some "n1"⟩).1,
   (blank_text_rejected (run initialWorld [Op.add "buy milk" Priority.LOW "t0" (some "n1")]).store
      " \t\n " (by decide) Priority.HIGH "t1" (some "n2")
      ⟨1, "buy milk", false, Priority.LOW, "t0", some "n1"⟩).2.1⟩

/-! ## Loading -/

theorem foldl_max_id_mem (tasks : List Task) (m : Nat) :
    tasks.foldl (fun m task => max m task.id) m = m ∨
      ∃ t ∈ tasks, tasks.foldl (fun m task => max m task.id) m = t.id := by
  induction tasks generalizing m with
  | nil => simp
  | cons a l ih =>
    simp only [List.foldl_cons, List.mem_cons]
    rcases ih (max m a.id) with h | ⟨t, ht, h⟩
    · rcases le_total m a.id with hle | hle
      · exact Or.inr ⟨a, Or.inl rfl, by rw [h, max_eq_right hle]⟩
      · exact Or.inl (by rw [h, max_eq_left hle])
    · exact Or.inr ⟨t, Or.inr ht, h⟩

/-- C8: `load` replaces the collection with the snapshot and sets the next id
to the largest id of the snapshot plus 1, and to 1 for an empty snapshot; after
a snapshot whose largest id is 7 the next `add` assigns the id 8. -/
theorem loadTasks_next_id (s : Store) (snapshot : List Task) :
    (loadTasks s (some snapshot)).store.tasks = snapshot ∧
    (snapshot = [] → (loadTasks s (some snapshot)).store.nextId = 1) ∧
    (∀ t ∈ snapshot, t.id + 1 ≤ (loadTasks s (some snapshot)).store.nextId) ∧
    (snapshot ≠ [] → ∃ t ∈ snapshot, (loadTasks s (some snapshot)).store.nextId = t.id + 1) ∧
    ((∃ t ∈ snapshot, t.id = 7) → (∀ t ∈ snapshot, t.id ≤ 7) →
      ∀ (rawText : String) (p : Priority) (now : String) (scheduled : Option String),
        jsTrim rawText ≠ "" →
        ∃ newTask : Task,
          (add (loadTasks s (some snapshot)).store rawText p now scheduled).store.tasks =
            snapshot ++ [newTask] ∧ newTask.id = 8) := by
  have hnext : (loadTasks s (some snapshot)).store.nextId =
      snapshot.foldl (fun m task => max m task.id) 0 + 1 := rfl
  refine ⟨rfl, ?_, ?_, ?_, ?_⟩
  · rintro rfl
    rfl
  · intro t ht
    rw [hnext]
    exact Nat.succ_le_succ ((le_foldl_max_id snapshot 0).2 t ht)
  · intro hne
    rw [hnext]
    rcases foldl_max_id_mem snapshot 0 with h0 | ⟨t, ht, h⟩
    · obtain ⟨t, ht⟩ := List.exists_mem_of_ne_nil snapshot hne
      have hle := (le_foldl_max_id snapshot 0).2 t ht
      rw [h0] at hle
      exact ⟨t, ht, by rw [h0, Nat.le_zero.mp hle]⟩
    · exact ⟨t, ht, by rw [h]⟩
  · rintro ⟨t7, ht7, h7⟩ hmax rawText p now scheduled hne
    have hfold : snapshot.foldl (fun m task => max m task.id) 0 = 7 := by
      apply le_antisymm
      · rcases foldl_max_id_mem snapshot 0 with h0 | ⟨t, ht, h⟩
        · rw [h0]; exact Nat.zero_le _
        · rw [h]; exact hmax t ht
      · rw [← h7]
        exact (le_foldl_max_id snapshot 0).2 t7 ht7
    refine ⟨{ id := 8, text := jsTrim rawText, completed := false, priority := p,
              createdAt := now, notificationId := scheduled }, ?_, rfl⟩
    simp [add, addTask, setInputText, setSelectedPriority, hne, loadTasks, hfold]

/-! ## Deleting -/

theorem toggleOne_of_ne {taskId : Nat} {u : Task} (h : u.id ≠ taskId) :
    toggleOne taskId u = (u, []) := by
  simp [toggleOne, h]

/-- C6, as the code has it: after `delete(id)` no task with that id is in the
collection, and a following `toggleCompletion(id)` changes nothing, calls the
notifier for nothing and reports no error. -/
theorem delete_then_toggle_is_silent (s : Store) (taskId : Nat) :
    (∀ t ∈ (deleteTask s taskId).store.tasks, t.id ≠ taskId) ∧
    toggleTaskCompletion (deleteTask s taskId).store taskId =
      { store := (deleteTask s taskId).store, effects := [], alerts := [] } := by
  have hgone : ∀ t ∈ (deleteTask s taskId).store.tasks, t.id ≠ taskId := by
    intro t ht
    simpa using (List.mem_filter.mp ht).2
  refine ⟨hgone, ?_⟩
  have hmap : (deleteTask s taskId).store.tasks.map (fun task => (toggleOne taskId task).1) =
      (deleteTask s taskId).store.tasks := by
    conv_rhs => rw [← List.map_id (deleteTask s taskId).store.tasks]
    exact List.map_congr_left fun u hu => by rw [toggleOne_of_ne (hgone u hu)]; rfl
  have heff : (deleteTask s taskId).store.tasks.flatMap (fun task => (toggleOne taskId task).2) =
      [] :=
    List.flatMap_eq_nil_iff.mpr fun u hu => by rw [toggleOne_of_ne (hgone u hu)]
  unfold toggleTaskCompletion
  rw [hmap, heff]

/-- Counterexample to C6 as stated: the toggle that follows a delete reports
no error (and nothing else: the store is the one the delete left). -/
theorem toggle_after_delete_reports_no_error :
    ¬ (∃ a, a ∈ (toggleTaskCompletion
        (deleteTask (add initialStore "buy milk" Priority.LOW "t0" (some "n1")).store 1).store
        1).alerts) ∧
    (toggleTaskCompletion
        (deleteTask (add initialStore "buy milk" Priority.LOW "t0" (some "n1")).store 1).store
        1).store =
      (deleteTask (add initialStore "buy milk" Priority.LOW "t0" (some "n1")).store 1).store := by
  constructor
  · rintro ⟨a, ha⟩
    simp [toggleTaskCompletion] at ha
  · decide

/-! ## Editing -/

/-- C9: in every store state the application reaches, `edit` of a stored task
with a text whose trimmed form is the task's text and with priority `q` puts
`q` in the task's priority and changes nothing else of the task or of the
other tasks, and calls the notifier for nothing. -/
theorem edit_same_text_sets_priority_only (s : Store) (hs : Reachable s) (t : Task)
    (ht : t ∈ s.tasks) (newText : String) (q : Priority) (hsame : jsTrim newText = t.text) :
    ∃ o : Outcome, edit s t newText q = some o ∧
      o.store.tasks = s.tasks.map (fun u => if u = t then { t with priority := q } else u) ∧
      o.effects = [] ∧ o.alerts = [] := by
  have hinv := hs.inv
  have hne : jsTrim newText ≠ "" := by rw [hsame]; exact hinv.nonempty t ht
  have hone : ∀ u ∈ s.tasks, editOne t.id newText q u =
      (if u = t then { t with priority := q } else u, []) := by
    intro u hu
    by_cases hid : u.id = t.id
    · have hut : u = t := hinv.eq_of_id_eq hu ht hid
      subst hut
      simp [editOne, hsame]
    · have hut : u ≠ t := fun h => hid (by rw [h])
      simp [editOne, hid, hut]
  refine ⟨{ store := closeEditModal
              (setEditPriority (setEditText (openEditModal s t) newText) q)
              (s.tasks.map fun task => (editOne t.id newText q task).1),
            effects := s.tasks.flatMap fun task => (editOne t.id newText q task).2,
            alerts := [] }, ?_, ?_, ?_, rfl⟩
  · simp only [edit, saveEditedTask, setEditText, setEditPriority, openEditModal, hne,
      if_false]
  · exact List.map_congr_left fun u hu => by rw [hone u hu]
  · exact List.flatMap_eq_nil_iff.mpr fun u hu => by rw [hone u hu]

/-- Witness of C9: the one task of a store is edited with its own text, padded
with blanks, and a new priority. -/
theorem edit_same_text_sets_priority_only_witness :
    ∃ o : Outcome,
      edit (run initialWorld [Op.add "buy milk" Priority.LOW "t0" (some "n1")]).store
        ⟨1, "buy milk", false, Priority.LOW, "t0", some "n1"⟩ " buy milk " Priority.HIGH =
        some o ∧
      o.store.tasks =
        (run initialWorld [Op.add "buy milk" Priority.LOW "t0" (some "n1")]).store.tasks.map
          (fun u => if u = ⟨1, "buy milk", false, Priority.LOW, "t0", some "n1"⟩
            then { (⟨1, "buy milk", false, Priority.LOW, "t0", some "n1"⟩ : Task) with
                   priority := Priority.HIGH }
            else u) ∧
      o.effects = [] ∧ o.alerts = [] :=
  edit_same_text_sets_priority_only _
    ⟨[Op.add "buy milk" Priority.LOW "t0" (some "n1")], rfl⟩
    ⟨1, "buy milk", false, Priority.LOW, "t0", some "n1"⟩ (by decide) " buy milk "
    Priority.HIGH (by decide)

/-! ## Sorted view -/

/-- The comparator orders by the key `(completed, -priorityOrder)`. -/
theorem compareTasks_le_iff (a b : Task) :
    compareTasks a b ≤ 0 ↔
      4 * boolToInt a.completed - priorityOrder a.priority ≤
        4 * boolToInt b.completed - priorityOrder b.priority := by
  obtain ⟨_, _, ca, pa, _, _⟩ := a
  obtain ⟨_, _, cb, pb, _, _⟩ := b
  cases ca <;> cases cb <;> cases pa <;> cases pb <;>
    simp [compareTasks, boolToInt, priorityOrder]

theorem compareTasks_total : IsTotal Task (fun a b => compareTasks a b ≤ 0) :=
  ⟨fun a b => by
    simp only [compareTasks_le_iff]
    exact le_total _ _⟩

theorem compareTasks_trans : IsTrans Task (fun a b => compareTasks a b ≤ 0) :=
  ⟨fun a b c hab hbc => by
    simp only [compareTasks_le_iff] at hab hbc ⊢
    exact le_trans hab hbc⟩

theorem Heap.read_append_new (h : Heap) (xs : List Task) : Heap.read (h ++ [xs]) h.length = xs := by
  simp [Heap.read]

theorem Heap.read_append_old (h : Heap) (xs : List Task) {ref : Nat} (hlt : ref < h.length) :
    Heap.read (h ++ [xs]) ref = Heap.read h ref := by
  simp [Heap.read, List.getElem?_append_left hlt]

/-- The sorted copy is a new array object; the arrays that existed stay. -/
theorem sortedTasks_eq (h : Heap) (tasks : Nat) :
    sortedTasks h tasks = (h ++ [arraySort compareTasks (h.read tasks)], h.length) := by
  simp [sortedTasks, sortTasksByPriority, spread, Heap.read_append_new]

theorem sortedView_eq (tasks : List Task) : sortedView tasks = arraySort compareTasks tasks := by
  unfold sortedView
  rw [sortedTasks_eq]
  simp [Heap.read]

/-- Applied to the stored array itself, `sortTasksByPriority` reorders it: the
copy made at the call site is what keeps the collection in insertion order. -/
theorem sortTasksByPriority_sorts_in_place :
    sortTasksByPriority
        [[⟨1, "a", false, Priority.LOW, "t0", none⟩, ⟨2, "b", false, Priority.HIGH, "t1", none⟩]]
        0 =
      ([[⟨2, "b", false, Priority.HIGH, "t1", none⟩, ⟨1, "a", false, Priority.LOW, "t0", none⟩]],
        0) := by
  decide

/-- C3: the sorted view is a reordering of the stored tasks in which no
completed task comes before an incomplete one and, between two tasks of equal
completion, the earlier one has the priority that ranks at least as high
(HIGH = 3, MEDIUM = 2, LOW = 1); a LOW incomplete, a HIGH completed and a
MEDIUM incomplete task come out as MEDIUM incomplete, LOW incomplete, HIGH
completed. -/
theorem sortedView_sorted (tasks : List Task) :
    (sortedView tasks).Perm tasks ∧
    (sortedView tasks).Pairwise (fun a b =>
      (a.completed = true → b.completed = true) ∧
      (a.completed = b.completed → priorityOrder b.priority ≤ priorityOrder a.priority)) ∧
    (∀ a b c : Task,
      a.priority = Priority.LOW → a.completed = false →
      b.priority = Priority.HIGH → b.completed = true →
      c.priority = Priority.MEDIUM → c.completed = false →
      sortedView [a, b, c] = [c, a, b]) := by
  refine ⟨?_, ?_, ?_⟩
  · rw [sortedView_eq]
    exact List.perm_insertionSort _ tasks
  · rw [sortedView_eq]
    haveI := compareTasks_total
    haveI := compareTasks_trans
    have hsorted : (arraySort compareTasks tasks).Pairwise (fun a b => compareTasks a b ≤ 0) :=
      List.sorted_insertionSort (fun a b => compareTasks a b ≤ 0) tasks
    refine hsorted.imp ?_
    intro a b hab
    obtain ⟨_, _, ca, pa, _, _⟩ := a
    obtain ⟨_, _, cb, pb, _, _⟩ := b
    revert hab
    cases ca <;> cases cb <;> cases pa <;> cases pb <;>
      simp [compareTasks, boolToInt, priorityOrder]
  · intro a b c hap hac hbp hbc hcp hcc
    obtain ⟨_, _, ca, pa, _, _⟩ := a
    obtain ⟨_, _, cb, pb, _, _⟩ := b
    obtain ⟨_, _, cc, pc, _, _⟩ := c
    simp only at hap hac hbp hbc hcp hcc
    subst hap hac hbp hbc hcp hcc
    rw [sortedView_eq]
    simp [arraySort, List.insertionSort, List.orderedInsert, compareTasks, boolToInt,
      priorityOrder]

/-- C10: computing the sorted view leaves the stored collection, and every
array that existed, with the same tasks in the same order; the view is a new
array, and computing it again gives the same output and leaves the first
output as it was. -/
theorem sortedTasks_leaves_collection (h : Heap) (tasks : Nat) (hlt : tasks < h.length) :
    (sortedTasks h tasks).1.read tasks = h.read tasks ∧
    (∀ ref, ref < h.length → (sortedTasks h tasks).1.read ref = h.read ref) ∧
    (sortedTasks h tasks).2 ≠ tasks ∧
    (sortedTasks (sortedTasks h tasks).1 tasks).1.read
        (sortedTasks (sortedTasks h tasks).1 tasks).2 =
      (sortedTasks h tasks).1.read (sortedTasks h tasks).2 ∧
    (sortedTasks (sortedTasks h tasks).1 tasks).1.read (sortedTasks h tasks).2 =
      (sortedTasks h tasks).1.read (sortedTasks h tasks).2 ∧
    (sortedTasks (sortedTasks h tasks).1 tasks).1.read tasks = h.read tasks := by
  have hframe : ∀ ref, ref < h.length → (sortedTasks h tasks).1.read ref = h.read ref := by
    intro ref href
    rw [sortedTasks_eq]
    exact Heap.read_append_old h _ href
  have hlen : (sortedTasks h tasks).1.length = h.length + 1 := by
    rw [sortedTasks_eq]; simp
  have hlt1 : tasks < (sortedTasks h tasks).1.length := by omega
  have hout : (sortedTasks h tasks).1.read (sortedTasks h tasks).2 =
      arraySort compareTasks (h.read tasks) := by
    rw [sortedTasks_eq]
    exact Heap.read_append_new h _
  refine ⟨hframe tasks hlt, hframe, ?_, ?_, ?_, ?_⟩
  · rw [sortedTasks_eq]
    exact Nat.ne_of_gt hlt
  · rw [hout, sortedTasks_eq (sortedTasks h tasks).1 tasks]
    dsimp only
    rw [Heap.read_append_new, hframe tasks hlt]
  · rw [sortedTasks_eq (sortedTasks h tasks).1 tasks]
    dsimp only
    rw [Heap.read_append_old _ _ (by rw [sortedTasks_eq]; simp)]
  · rw [sortedTasks_eq (sortedTasks h tasks).1 tasks]
    dsimp only
    rw [Heap.read_append_old _ _ hlt1, hframe tasks hlt]

/-- Witness of C10: a heap whose only array is a stored collection of three
tasks. -/
theorem sortedTasks_leaves_collection_witness :
    (sortedTasks [[⟨1, "a", false, Priority.LOW, "t0", none⟩,
        ⟨2, "b", true, Priority.HIGH, "t1", none⟩,
        ⟨3, "c", false, Priority.MEDIUM, "t2", none⟩]] 0).1.read 0 =
      Heap.read [[⟨1, "a", false, Priority.LOW, "t0", none⟩,
        ⟨2, "b", true, Priority.HIGH, "t1", none⟩,
        ⟨3, "c", false, Priority.MEDIUM, "t2", none⟩]] 0 :=
  (sortedTasks_leaves_collection [[⟨1, "a", false, Priority.LOW, "t0", none⟩,
        ⟨2, "b", true, Priority.HIGH, "t1", none⟩,
        ⟨3, "c", false, Priority.MEDIUM, "t2", none⟩]] 0 (by decide)).1

/-! ## Toggling twice -/

/-- In a well-formed store, a `map` that acts on the tasks of one stored
task's id acts on that task alone. -/
theorem Inv.map_at {s : Store} (h : Inv s) {t : Task} (ht : t ∈ s.tasks) (f : Task → Task) :
    s.tasks.map (fun u => if u.id = t.id then f u else u) =
      s.tasks.map (fun u => if u = t then f t else u) := by
  apply List.map_congr_left
  intro u hu
  by_cases hid : u.id = t.id
  · have hut : u = t := h.eq_of_id_eq hu ht hid
    subst hut
    simp
  · have hut : u ≠ t := fun e => hid (by rw [e])
    simp [hid, hut]

theorem toggleTaskCompletion_tasks_at {s : Store} (h : Inv s) {t : Task} (ht : t ∈ s.tasks) :
    (toggleTaskCompletion s t.id).store.tasks =
      s.tasks.map (fun u => if u = t then (toggleOne t.id t).1 else u) := by
  rw [← h.map_at ht (fun u => (toggleOne t.id u).1)]
  apply List.map_congr_left
  intro u _
  by_cases hid : u.id = t.id
  · simp [hid]
  · simp [hid, toggleOne_of_ne hid]

theorem toggleTaskCompletion_effects_at {s : Store} (h : Inv s) {t : Task} (ht : t ∈ s.tasks) :
    (toggleTaskCompletion s t.id).effects = (toggleOne t.id t).2 := by
  obtain ⟨l1, l2, hl⟩ := List.append_of_mem ht
  have hd := h.distinct
  have hne : ∀ u ∈ l1 ++ l2, (toggleOne t.id u).2 = [] := by
    intro u hu
    have hu' : u ∈ s.tasks := by
      rw [hl]
      simp only [List.mem_append, List.mem_cons] at hu ⊢
      tauto
    have hid : u.id ≠ t.id := by
      intro e
      have hut : u = t := h.eq_of_id_eq hu' ht e
      subst hut
      rw [hl] at hd
      simp only [List.map_append, List.map_cons] at hd
      have hd' := List.nodup_middle.mp hd
      simp only [List.nodup_cons, List.mem_append, List.mem_map] at hd'
      simp only [List.mem_append] at hu
      rcases hu with hu | hu
      · exact hd'.1 (Or.inl ⟨u, hu, rfl⟩)
      · exact hd'.1 (Or.inr ⟨u, hu, rfl⟩)
    rw [toggleOne_of_ne hid]
  show s.tasks.flatMap (fun task => (toggleOne t.id task).2) = _
  rw [hl]
  simp only [List.flatMap_append, List.flatMap_cons]
  rw [List.flatMap_eq_nil_iff.mpr fun u hu => hne u (List.mem_append_left _ hu),
    List.flatMap_eq_nil_iff.mpr fun u hu => hne u (List.mem_append_right _ hu)]
  simp

theorem attachIfScheduled_tasks_at {s s' : Store} (h : Inv s) {t : Task} (ht : t ∈ s.tasks)
    {a : Task} (ha : a.id = t.id)
    (hs' : s'.tasks = s.tasks.map (fun u => if u = t then a else u))
    (r : Option String) :
    (attachIfScheduled s' t.id r).tasks =
      s.tasks.map (fun u => if u = t then
        (if truthy r then { a with notificationId := r } else a) else u) := by
  unfold attachIfScheduled
  by_cases hr : truthy r = true
  · simp only [hr, if_true, updateTaskNotificationId]
    rw [hs', List.map_map]
    apply List.map_congr_left
    intro u hu
    by_cases hut : u = t
    · simp [hut, ha]
    · have hid : u.id ≠ t.id := fun e => hut (h.eq_of_id_eq hu ht e)
      simp [hut, hid]
  · have hr' : truthy r = false := by simpa using hr
    simp [hr', hs']

theorem inv_attachAll {s : Store} (h : Inv s) (notifier : Nat → String → Option String)
    (effects : List Effect) : Inv (attachAll notifier s effects) := by
  induction effects generalizing s with
  | nil => exact h
  | cons e es ih =>
    cases e with
    | cancel x => exact ih h
    | schedule taskId taskText => exact ih (inv_attachIfScheduled h taskId _)

theorem inv_toggleCompletion {s : Store} (h : Inv s) (notifier : Nat → String → Option String)
    (taskId : Nat) : Inv (toggleCompletion notifier s taskId) :=
  inv_attachAll (inv_toggleTaskCompletion h taskId) notifier _

/-- In a well-formed store `toggleCompletion` replaces the task of the toggled
id by its `toggledTask` and leaves the other tasks. -/
theorem toggleCompletion_tasks_at {s : Store} (h : Inv s) {t : Task} (ht : t ∈ s.tasks)
    (notifier : Nat → String → Option String) :
    (toggleCompletion notifier s t.id).tasks =
      s.tasks.map (fun u => if u = t then toggledTask notifier t else u) := by
  have htasks := toggleTaskCompletion_tasks_at h ht
  have heff := toggleTaskCompletion_effects_at h ht
  unfold toggleCompletion
  rw [heff]
  have hid1 : (toggleOne t.id t).1.id = t.id := toggleOne_id _ _
  obtain ⟨id, text, c, p, cr, nid⟩ := t
  cases c <;> cases nid with
  | none =>
    first
    | (simp only [toggleOne, toggledTask, truthy, cancelNotification, attachAll] at htasks ⊢
       simpa using htasks)
    | (have hatt := attachIfScheduled_tasks_at h ht hid1 htasks (notifier id text)
       simp only [toggleOne, toggledTask, truthy, cancelNotification, attachAll] at hatt ⊢
       simpa using hatt)
  | some x =>
    by_cases hx : x = ""
    · subst hx
      first
      | (simp only [toggleOne, toggledTask, truthy, cancelNotification, attachAll] at htasks ⊢
         simpa using htasks)
      | (have hatt := attachIfScheduled_tasks_at h ht hid1 htasks (notifier id text)
         simp only [toggleOne, toggledTask, truthy, cancelNotification, attachAll] at hatt ⊢
         simpa using hatt)
    · simp [toggleOne, toggledTask, truthy, cancelNotification, attachAll, hx] at htasks ⊢
      simpa using htasks

/-- C5, as the code has it: in every store state the application reaches,
toggling a stored task twice, each requested reminder resolved before the next
step, changes that task alone and restores its `completed` value; the task
ends with a live identifier exactly when it was incomplete at the start and
the reminder requested by the second toggle resolved to one. -/
theorem toggle_twice_restores_completed (s : Store) (hs : Reachable s) (t : Task)
    (ht : t ∈ s.tasks) (first second : Nat → String → Option String) :
    ∃ t2 : Task,
      (toggleCompletion second (toggleCompletion first s t.id) t.id).tasks =
        s.tasks.map (fun u => if u = t then t2 else u) ∧
      t2.id = t.id ∧ t2.text = t.text ∧ t2.priority = t.priority ∧
      t2.createdAt = t.createdAt ∧ t2.completed = t.completed ∧
      truthy t2.notificationId = (!t.completed && truthy (second t.id t.text)) := by
  have hinv := hs.inv
  have h1 := toggleCompletion_tasks_at hinv ht first
  have hinv1 : Inv (toggleCompletion first s t.id) := inv_toggleCompletion hinv first t.id
  have hid1 : (toggledTask first t).id = t.id := by
    unfold toggledTask
    split <;> [split_ifs; skip] <;> simp [toggleOne_id]
  have hmem1 : toggledTask first t ∈ (toggleCompletion first s t.id).tasks := by
    rw [h1]
    exact List.mem_map.mpr ⟨t, ht, by simp⟩
  have h2 := toggleCompletion_tasks_at hinv1 hmem1 second
  rw [hid1] at h2
  refine ⟨toggledTask second (toggledTask first t), ?_, ?_⟩
  · rw [h2, h1, List.map_map]
    apply List.map_congr_left
    intro u hu
    by_cases hut : u = t
    · simp [hut]
    · have hne : u ≠ toggledTask first t := by
        intro e
        exact hut (hinv.eq_of_id_eq hu ht (by rw [e, hid1]))
      simp [hut, hne]
  · clear h1 h2 hmem1 hinv1 hid1 ht
    have hnone : truthy none = false := rfl
    obtain ⟨id, text, c, p, cr, nid⟩ := t
    have key : ∀ r1 r2 : Option String, first id text = r1 → second id text = r2 →
        (toggledTask second (toggledTask first ⟨id, text, c, p, cr, nid⟩)).id = id ∧
        (toggledTask second (toggledTask first ⟨id, text, c, p, cr, nid⟩)).text = text ∧
        (toggledTask second (toggledTask first ⟨id, text, c, p, cr, nid⟩)).priority = p ∧
        (toggledTask second (toggledTask first ⟨id, text, c, p, cr, nid⟩)).createdAt = cr ∧
        (toggledTask second (toggledTask first ⟨id, text, c, p, cr, nid⟩)).completed = c ∧
        truthy (toggledTask second (toggledTask first ⟨id, text, c, p, cr, nid⟩)).notificationId =
          (!c && truthy r2) := by
      intro r1 r2 e1 e2
      have split3 : ∀ o : Option String, o = none ∨ (∃ x, o = some x ∧ truthy (some x) = true) ∨
          (∃ x, o = some x ∧ truthy (some x) = false) := by
        intro o
        cases o with
        | none => exact Or.inl rfl
        | some x =>
          cases hx : truthy (some x)
          · exact Or.inr (Or.inr ⟨x, rfl, hx⟩)
          · exact Or.inr (Or.inl ⟨x, rfl, hx⟩)
      rcases split3 nid with rfl | ⟨x, rfl, hx⟩ | ⟨x, rfl, hx⟩ <;>
        rcases split3 r1 with rfl | ⟨x1, rfl, hx1⟩ | ⟨x1, rfl, hx1⟩ <;>
        rcases split3 r2 with rfl | ⟨x2, rfl, hx2⟩ | ⟨x2, rfl, hx2⟩ <;>
        cases c <;>
        simp [toggledTask, toggleOne, cancelNotification, hnone, e1, e2, *]
    exact key _ _ rfl rfl

/-- Witness of C5: the one task of a store, added with a reminder, is toggled
twice while the notifier answers with no identifier. -/
theorem toggle_twice_restores_completed_witness :
    ∃ t2 : Task,
      (toggleCompletion (fun _ _ => none)
          (toggleCompletion (fun _ _ => none)
            (run initialWorld [Op.add "buy milk" Priority.LOW "t0" (some "n1")]).store
            (Task.id ⟨1, "buy milk", false, Priority.LOW, "t0", some "n1"⟩))
          (Task.id ⟨1, "buy milk", false, Priority.LOW, "t0", some "n1"⟩)).tasks =
        (run initialWorld [Op.add "buy milk" Priority.LOW "t0" (some "n1")]).store.tasks.map
          (fun u => if u = ⟨1, "buy milk", false, Priority.LOW, "t0", some "n1"⟩ then t2
            else u) ∧
      t2.id = 1 ∧ t2.text = "buy milk" ∧ t2.priority = Priority.LOW ∧
      t2.createdAt = "t0" ∧ t2.completed = false ∧
      truthy t2.notificationId = (!false && truthy none) :=
  toggle_twice_restores_completed _
    ⟨[Op.add "buy milk" Priority.LOW "t0" (some "n1")], rfl⟩
    ⟨1, "buy milk", false, Priority.LOW, "t0", some "n1"⟩ (by decide)
    (fun _ _ => none) (fun _ _ => none)

/-- Counterexample to C5 as stated: a task without a reminder identifier has
one after two toggles when the notifier answers, and a task with an identifier
has none after two toggles when the notifier answers with `null`. -/
theorem toggle_twice_changes_handle_state :
    ((add initialStore "buy milk" Priority.LOW "t0" none).store.tasks.map
        Task.notificationId = [none] ∧
      (toggleCompletion (fun _ _ => some "n1")
        (toggleCompletion (fun _ _ => some "n1")
          (add initialStore "buy milk" Priority.LOW "t0" none).store 1) 1).tasks.map
        Task.notificationId = [some "n1"]) ∧
    ((add initialStore "buy milk" Priority.LOW "t0" (some "n0")).store.tasks.map
        Task.notificationId = [some "n0"] ∧
      (toggleCompletion (fun _ _ => none)
        (toggleCompletion (fun _ _ => none)
          (add initialStore "buy milk" Priority.LOW "t0" (some "n0")).store 1) 1).tasks.map
        Task.notificationId = [none]) := by
  decide

/-! ## Reminder identifiers of completed tasks -/

/-- Every handler keeps completed tasks free of live identifiers; only the
steps at which a pending promise resolves are left out. -/
theorem noLiveHandle_step {w : World} (h : NoLiveHandle w.store) (op : Op)
    (hop : ∀ k r, op ≠ Op.attach k r ∧ op ≠ Op.attachEdit k r ∧ op ≠ Op.addCommit k r) :
    NoLiveHandle (step w op).store := by
  cases op with
  | add rawText p now scheduled =>
    intro t ht hc
    simp only [step, add, addTask, setInputText, setSelectedPriority] at ht
    split_ifs at ht with hempty
    · exact h t ht hc
    · simp only [List.mem_append, List.mem_singleton] at ht
      rcases ht with ht | rfl
      · exact h t ht hc
      · simp at hc
  | addStart rawText p now =>
    intro t ht hc
    simp only [step] at ht
    cases hp : (addTaskStart (setSelectedPriority (setInputText w.store rawText) p) now).2 with
    | none =>
      rw [hp] at ht
      exact h t ht hc
    | some pending =>
      rw [hp] at ht
      exact h t ht hc
  | addCommit k r => exact absurd rfl (hop k r).2.2
  | toggle taskId =>
    intro t ht hc
    simp only [step, toggleTaskCompletion] at ht
    obtain ⟨u, hu, rfl⟩ := List.mem_map.mp ht
    have hu' := h u hu
    revert hc hu'
    obtain ⟨id, text, c, p, cr, nid⟩ := u
    unfold toggleOne
    have hnone : truthy none = false := rfl
    cases c <;> cases hx : truthy nid <;> by_cases hid : id = taskId <;>
      simp [hid, hx, hnone]
  | edit task newText newPriority =>
    intro t ht hc
    simp only [step, edit, saveEditedTask, setEditText, setEditPriority, openEditModal] at ht
    split_ifs at ht with hempty
    · exact h t ht hc
    · simp only [closeEditModal] at ht
      obtain ⟨u, hu, rfl⟩ := List.mem_map.mp ht
      have hu' := h u hu
      revert hc hu'
      obtain ⟨id, text, c, p, cr, nid⟩ := u
      unfold editOne
      have hnone : truthy none = false := rfl
      cases c <;> cases hx : truthy nid <;> by_cases hid : id = task.id <;>
        by_cases htext : text = jsTrim newText <;>
        simp [hid, hx, htext, hnone]
  | delete taskId =>
    intro t ht hc
    simp only [step, deleteTask] at ht
    exact h t (List.mem_filter.mp ht).1 hc
  | load =>
    intro t ht hc
    exact h t ht hc
  | attach taskId r => exact absurd rfl (hop taskId r).1
  | attachEdit taskId r => exact absurd rfl (hop taskId r).2.1

/-- Storing an identifier on tasks that are incomplete keeps completed tasks
free of live identifiers: the test the continuations do not make. -/
theorem noLiveHandle_update_of_incomplete {s : Store} (h : NoLiveHandle s) (taskId : Nat)
    (r : Option String) (hopen : ∀ t ∈ s.tasks, t.id = taskId → t.completed = false) :
    NoLiveHandle (updateTaskNotificationId s taskId r) := by
  intro t ht hc
  simp only [updateTaskNotificationId] at ht
  obtain ⟨u, hu, rfl⟩ := List.mem_map.mp ht
  by_cases hid : u.id = taskId
  · have hu2 := hopen u hu hid
    simp [hid, hu2] at hc
  · simp only [hid, if_false] at hc ⊢
    exact h u hu hc

/-- C4, the defect: from the empty store a task is added, completed, reopened
(which requests a reminder) and completed again before the request resolves;
when it resolves the identifier is stored on the completed task. -/
theorem late_attach_gives_completed_task_a_handle :
    NoLiveHandle initialStore ∧
    (run initialWorld
        [Op.add "buy milk" Priority.MEDIUM "t0" (some "n1"), Op.toggle 1, Op.toggle 1,
          Op.toggle 1, Op.attach 1 (some "n2")]).store.tasks =
      [⟨1, "buy milk", true, Priority.MEDIUM, "t0", some "n2"⟩] ∧
    ¬ NoLiveHandle (run initialWorld
        [Op.add "buy milk" Priority.MEDIUM "t0" (some "n1"), Op.toggle 1, Op.toggle 1,
          Op.toggle 1, Op.attach 1 (some "n2")]).store := by
  refine ⟨?_, by decide, ?_⟩
  · intro t ht
    simp [initialStore] at ht
  · intro h
    have := h ⟨1, "buy milk", true, Priority.MEDIUM, "t0", some "n2"⟩ (by decide) rfl
    exact absurd this (by decide)

/-! ## Ids that `add` assigns -/

theorem nextId_le_step (w : World) (op : Op) (hload : op ≠ Op.load)
    (hsplit : op.splitsAdd = false) : w.store.nextId ≤ (step w op).store.nextId := by
  cases op with
  | add rawText p now scheduled =>
    simp only [step, add, addTask, setInputText, setSelectedPriority]
    split_ifs
    · exact le_refl _
    · exact Nat.le_succ _
  | addStart rawText p now => simp [Op.splitsAdd] at hsplit
  | addCommit k r => simp [Op.splitsAdd] at hsplit
  | toggle taskId => exact le_refl _
  | edit task newText newPriority =>
    simp only [step, edit, saveEditedTask, setEditText, setEditPriority, openEditModal]
    split_ifs
    · exact le_refl _
    · exact le_refl _
  | delete taskId => exact le_refl _
  | load => exact absurd rfl hload
  | attach taskId r =>
    simp only [step, attachIfScheduled]
    split_ifs
    · exact le_refl _
    · exact le_refl _
  | attachEdit taskId r => exact le_refl _

theorem keptByLoads_cons_of_ne (i : Nat) (w : World) (op : Op) (ops : List Op)
    (hload : op ≠ Op.load) : keptByLoads i w (op :: ops) = keptByLoads i (step w op) ops := by
  cases op <;> first | rfl | exact absurd rfl hload

/-- An id below the counter that the loads of a sequence keep stays below the
counter, when no `addTask` call of the sequence is overlapped. -/
theorem id_below_after_run {w : World} (h : WorldInv w) (ops : List Op)
    (hseq : ∀ op ∈ ops, op.splitsAdd = false) (i : Nat) (hi : i < w.store.nextId)
    (hkept : keptByLoads i w ops = true) : i < (run w ops).store.nextId := by
  induction ops generalizing w with
  | nil => exact hi
  | cons op ops ih =>
    have hseq2 : ∀ o ∈ ops, o.splitsAdd = false := fun o ho => hseq o (List.mem_cons_of_mem _ ho)
    by_cases hload : op = Op.load
    · subst hload
      simp only [keptByLoads, Bool.and_eq_true, List.any_eq_true, decide_eq_true_eq] at hkept
      obtain ⟨⟨v, hv, hiv⟩, hrest⟩ := hkept
      refine ih (inv_step h Op.load) hseq2 ?_ hrest
      exact Nat.lt_succ_of_le (le_trans hiv ((le_foldl_max_id w.store.tasks 0).2 v hv))
    · rw [keptByLoads_cons_of_ne i w op ops hload] at hkept
      exact ih (inv_step h op) hseq2
        (lt_of_lt_of_le hi (nextId_le_step w op hload (hseq op (List.mem_cons_self _ _))))
        hkept

theorem visited_ids_below {w : World} (h : WorldInv w) (ops : List Op)
    (hseq : ∀ op ∈ ops, op.splitsAdd = false) :
    ∀ x ∈ visited w ops, ∀ t ∈ x.1.store.tasks, keptByLoads t.id x.1 x.2 = true →
      t.id < (run w ops).store.nextId := by
  induction ops generalizing w with
  | nil =>
    intro x hx t ht _
    simp only [visited, List.mem_singleton] at hx
    subst hx
    exact h.store.below t ht
  | cons op ops ih =>
    intro x hx t ht hkept
    simp only [visited, List.mem_cons] at hx
    rcases hx with rfl | hx
    · exact id_below_after_run h (op :: ops) hseq t.id (h.store.below t ht) hkept
    · exact ih (inv_step h op) (fun o ho => hseq o (List.mem_cons_of_mem _ ho)) x hx t ht hkept

/-- C7, as the code has it: after any steps `before`, and then steps `ops`, the
id that `add` assigns is that of no task in the collection. When no `addTask`
call of `ops` is overlapped by another step, it is also the id of no task that
was in the collection at a point of `ops`, deleted tasks included, unless a
later load of `ops` read a snapshot whose ids were all smaller than that id. -/
theorem add_id_fresh_unless_above_snapshot (before ops : List Op) (rawText : String)
    (p : Priority) (now : String) (scheduled : Option String) (hne : jsTrim rawText ≠ "") :
    ∃ newTask : Task,
      (add (run (run initialWorld before) ops).store rawText p now scheduled).store.tasks =
        (run (run initialWorld before) ops).store.tasks ++ [newTask] ∧
      (∀ t ∈ (run (run initialWorld before) ops).store.tasks, t.id ≠ newTask.id) ∧
      ((∀ op ∈ ops, op.splitsAdd = false) →
        ∀ x ∈ visited (run initialWorld before) ops, ∀ t ∈ x.1.store.tasks,
          keptByLoads t.id x.1 x.2 = true → t.id ≠ newTask.id) := by
  have hw : WorldInv (run initialWorld before) := inv_run inv_initialWorld before
  refine ⟨{ id := (run (run initialWorld before) ops).store.nextId, text := jsTrim rawText,
            completed := false, priority := p, createdAt := now,
            notificationId := scheduled }, ?_, ?_, ?_⟩
  · simp [add, addTask, setInputText, setSelectedPriority, hne]
  · intro t ht
    exact Nat.ne_of_lt ((inv_run hw ops).store.below t ht)
  · intro hseq x hx t ht hkept
    exact Nat.ne_of_lt (visited_ids_below hw ops hseq x hx t ht hkept)

/-- Witness of C7: three tasks are added, the second is deleted and the
application is started again; the snapshot holds the ids 1 and 3, and the next
`add` assigns 4, not the deleted 2. -/
theorem add_id_fresh_unless_above_snapshot_witness :
    ∃ newTask : Task,
      (add (run (run initialWorld [])
          [Op.add "a" Priority.LOW "t0" none, Op.add "b" Priority.LOW "t1" none,
            Op.add "c" Priority.LOW "t2" none, Op.delete 2, Op.load]).store
        "d" Priority.LOW "t3" none).store.tasks =
        (run (run initialWorld [])
          [Op.add "a" Priority.LOW "t0" none, Op.add "b" Priority.LOW "t1" none,
            Op.add "c" Priority.LOW "t2" none, Op.delete 2, Op.load]).store.tasks ++
          [newTask] ∧
      (∀ t ∈ (run (run initialWorld [])
          [Op.add "a" Priority.LOW "t0" none, Op.add "b" Priority.LOW "t1" none,
            Op.add "c" Priority.LOW "t2" none, Op.delete 2, Op.load]).store.tasks,
        t.id ≠ newTask.id) ∧
      ((∀ op ∈ [Op.add "a" Priority.LOW "t0" none, Op.add "b" Priority.LOW "t1" none,
            Op.add "c" Priority.LOW "t2" none, Op.delete 2, Op.load],
          op.splitsAdd = false) →
        ∀ x ∈ visited (run initialWorld [])
            [Op.add "a" Priority.LOW "t0" none, Op.add "b" Priority.LOW "t1" none,
              Op.add "c" Priority.LOW "t2" none, Op.delete 2, Op.load],
          ∀ t ∈ x.1.store.tasks, keptByLoads t.id x.1 x.2 = true → t.id ≠ newTask.id) :=
  add_id_fresh_unless_above_snapshot []
    [Op.add "a" Priority.LOW "t0" none, Op.add "b" Priority.LOW "t1" none,
      Op.add "c" Priority.LOW "t2" none, Op.delete 2, Op.load]
    "d" Priority.LOW "t3" none (by decide)

/-- Counterexample to C7 as stated: two tasks are added, the second (id 2) is
deleted, and the application is started again on the persisted snapshot; the
next `add` assigns the id 2 again. -/
theorem reload_reuses_deleted_id :
    (∃ t ∈ (run initialWorld
        [Op.add "a" Priority.LOW "t0" none, Op.add "b" Priority.LOW "t1" none]).store.tasks,
      t.id = 2 ∧ t.text = "b") ∧
    (add (run initialWorld
        [Op.add "a" Priority.LOW "t0" none, Op.add "b" Priority.LOW "t1" none, Op.delete 2,
          Op.load]).store
      "c" Priority.LOW "t2" none).store.tasks =
      [⟨1, "a", false, Priority.LOW, "t0", none⟩, ⟨2, "c", false, Priority.LOW, "t2", none⟩] := by
  refine ⟨⟨⟨2, "b", false, Priority.LOW, "t1", none⟩, by decide, rfl, rfl⟩, by decide⟩

end MyTasks
